import Mathlib

/-!
Verification of the `wellness` plan-storage layer (`src/wellness/db.py`).

The Python module persists "fitness plan" rows in a single SQLite table
`fitness_plan` and exposes three operations:

* `init_db()`        — `CREATE TABLE IF NOT EXISTS fitness_plan (...)`;
* `save_plan(profile, plan_text, day="", source="agent")` — inserts one row
  with `created_at = datetime.now(timezone.utc).isoformat()` and returns the
  auto-assigned rowid (`AUTOINCREMENT`, so ids strictly increase);
* `get_plans(profile, day=None)` — defaults `day` to the local weekday name
  (`datetime.now().strftime("%A")`), then runs
  `SELECT plan_text FROM fitness_plan WHERE profile = ? AND
   day_of_the_week = ? ORDER BY created_at DESC LIMIT 1`
  and returns the selected `plan_text`, or `""` when no row matches.

Shallow embedding choices:

* The database file is a `Store`: the (optional) table schema, the list of
  rows in insertion order, and the `AUTOINCREMENT` sequence counter.
* The clock is an environment input: `save_plan` receives the ISO-8601
  timestamp string `created_at` that `datetime.now(timezone.utc).isoformat()`
  would have produced, and `get_plans` receives the local weekday name
  `today` that `_today_weekday()` would have produced.
* `ORDER BY created_at DESC LIMIT 1` on a `TEXT` column compares strings
  byte-wise (SQLite BINARY collation); for valid UTF-8 this is exactly
  `String.lt` (lexicographic on code points).  Among rows tied on
  `created_at` SQLite's choice is unspecified; the model deterministically
  keeps the first row in table-scan (insertion) order.
-/

/-- One row of the `fitness_plan` table. -/
structure PlanRow where
  id : Nat
  profile : String
  plan_text : String
  created_at : String
  source : String
  day_of_the_week : String
deriving Repr, DecidableEq

/-- One column declaration of the `CREATE TABLE` statement in `init_db`. -/
structure Column where
  name : String
  decl : String
deriving Repr, DecidableEq

/-- The column set of the `fitness_plan` table, from the DDL in `init_db`. -/
def fitnessPlanColumns : List Column :=
  [⟨"id", "INTEGER PRIMARY KEY AUTOINCREMENT"⟩,
   ⟨"profile", "TEXT NOT NULL"⟩,
   ⟨"plan_text", "TEXT NOT NULL"⟩,
   ⟨"created_at", "TEXT NOT NULL"⟩,
   ⟨"source", "TEXT DEFAULT 'agent'"⟩,
   ⟨"day_of_the_week", "TEXT NOT NULL"⟩]

/-- The state of the single-file SQLite database `wellness.db`:
the schema of `fitness_plan` if the table exists, its rows in insertion
order, and the `AUTOINCREMENT` sequence (largest rowid ever assigned). -/
structure Store where
  schema : Option (List Column)
  rows : List PlanRow
  seq : Nat
deriving Repr, DecidableEq

/-- A freshly created database file: no table yet. -/
def Store.empty : Store := ⟨none, [], 0⟩

/-- `init_db()`: `CREATE TABLE IF NOT EXISTS fitness_plan (...)` —
creates the table with `fitnessPlanColumns` when absent, no-op otherwise. -/
def init_db (s : Store) : Store :=
  match s.schema with
  | none => { s with schema := some fitnessPlanColumns }
  | some _ => s

/-- Python default of `save_plan`'s `day` parameter (`day: str = ""`). -/
def save_plan_default_day : String := ""

/-- Python default of `save_plan`'s `source` parameter (`source: str = "agent"`). -/
def save_plan_default_source : String := "agent"

/-- `save_plan(profile, plan_text, day, source)`: runs `init_db()`, inserts
one row whose `created_at` is the current UTC timestamp (here the
environment input `created_at`), commits, and returns `cur.lastrowid`
together with the new store.  `AUTOINCREMENT` assigns `seq + 1`. -/
def save_plan (s : Store) (profile plan_text created_at day source : String) :
    Nat × Store :=
  let s₁ := init_db s
  let rid := s₁.seq + 1
  (rid,
   { s₁ with
     rows := s₁.rows ++ [⟨rid, profile, plan_text, created_at, source, day⟩],
     seq := rid })

/-- The rows satisfying `WHERE profile = ? AND day_of_the_week = ?`. -/
def matching (rows : List PlanRow) (profile day : String) : List PlanRow :=
  rows.filter fun r => r.profile == profile && r.day_of_the_week == day

/-- Strict lexicographic order on character lists (code-point order, which
for valid UTF-8 agrees with the byte-wise order SQLite's default BINARY
collation uses on `TEXT` values). -/
def charListLt : List Char → List Char → Bool
  | _, [] => false
  | [], _ :: _ => true
  | a :: as, b :: bs =>
    if a < b then true else if b < a then false else charListLt as bs

/-- SQLite BINARY comparison of two `TEXT` values, as used by
`ORDER BY created_at`. -/
def sqliteTextLt (a b : String) : Bool :=
  charListLt a.data b.data

/-- One comparison step of `ORDER BY created_at DESC LIMIT 1`: keep the row
with the larger `created_at` string, the earlier-scanned row on ties. -/
def pickLater (b r : PlanRow) : PlanRow :=
  if sqliteTextLt b.created_at r.created_at then r else b

/-- `ORDER BY created_at DESC LIMIT 1` over the matching rows: `none` on an
empty match set, otherwise the row with the (byte-wise) largest
`created_at`, first-scanned row winning ties. -/
def selectLatest : List PlanRow → Option PlanRow
  | [] => none
  | r :: rs => some (rs.foldl pickLater r)

/-- `get_plans(profile, day)`: runs `init_db()`, defaults `day = None` to the
local weekday name (environment input `today`), selects the newest matching
row and returns its `plan_text`, or `""` when no row matches.  The returned
store is the post-`init_db` state (the SELECT itself writes nothing). -/
def get_plans (s : Store) (profile : String) (day : Option String)
    (today : String) : String × Store :=
  let s₁ := init_db s
  let d := day.getD today
  (match selectLatest (matching s₁.rows profile d) with
   | some r => r.plan_text
   | none => "", s₁)

/-- The seven weekday names `datetime.now().strftime("%A")` can produce
(C locale), the codomain of `_today_weekday()`. -/
def weekdays : List String :=
  ["Monday", "Tuesday", "Wednesday", "Thursday", "Friday", "Saturday",
   "Sunday"]

/-- Well-formedness of a table state as SQLite maintains it: every assigned
rowid is at most the `AUTOINCREMENT` sequence value, and rowids are
pairwise distinct. -/
def Store.WF (s : Store) : Prop :=
  (∀ r ∈ s.rows, r.id ≤ s.seq) ∧ s.rows.Pairwise fun a b => a.id ≠ b.id

/-- The arguments of one `save_plan` call, used to describe a sequence of
intervening saves (`created_at` again standing for the clock reading of
that call). -/
structure SaveCall where
  profile : String
  plan_text : String
  created_at : String
  day : String
  source : String
deriving Repr, DecidableEq

/-- Run a sequence of `save_plan` calls against a store, in order. -/
def applySaves (s : Store) : List SaveCall → Store
  | [] => s
  | c :: cs =>
    applySaves (save_plan s c.profile c.plan_text c.created_at c.day
      c.source).2 cs

/-! ### Basic lemmas about the embedding -/

theorem init_db_rows (s : Store) : (init_db s).rows = s.rows := by
  unfold init_db
  cases s.schema <;> rfl

theorem init_db_seq (s : Store) : (init_db s).seq = s.seq := by
  unfold init_db
  cases s.schema <;> rfl

theorem init_db_idem (s : Store) : init_db (init_db s) = init_db s := by
  unfold init_db
  cases h : s.schema <;> simp [h]

theorem save_plan_fst (s : Store) (p t ts d src : String) :
    (save_plan s p t ts d src).1 = s.seq + 1 := by
  simp [save_plan, init_db_seq]

theorem save_plan_seq (s : Store) (p t ts d src : String) :
    (save_plan s p t ts d src).2.seq = s.seq + 1 := by
  simp [save_plan, init_db_seq]

theorem save_plan_rows (s : Store) (p t ts d src : String) :
    (save_plan s p t ts d src).2.rows =
      s.rows ++ [⟨s.seq + 1, p, t, ts, src, d⟩] := by
  simp [save_plan, init_db_rows, init_db_seq]

theorem matching_append (l₁ l₂ : List PlanRow) (p d : String) :
    matching (l₁ ++ l₂) p d = matching l₁ p d ++ matching l₂ p d :=
  List.filter_append ..

theorem mem_matching {r : PlanRow} {rows : List PlanRow} {p d : String} :
    r ∈ matching rows p d ↔
      r ∈ rows ∧ r.profile = p ∧ r.day_of_the_week = d := by
  simp [matching, List.mem_filter, and_assoc]

theorem stringDataEq {a b : String} (h : a.data = b.data) : a = b := by
  cases a
  cases b
  exact congrArg String.mk (by simpa using h)

theorem charListLt_irrefl (l : List Char) : charListLt l l = false := by
  induction l with
  | nil => rfl
  | cons a as ih => simp [charListLt, lt_irrefl, ih]

theorem charListLt_trans :
    ∀ (a b c : List Char), charListLt a b = true → charListLt b c = true →
      charListLt a c = true := by
  intro a
  induction a with
  | nil =>
    intro b c h₁ h₂
    cases b with
    | nil => simp [charListLt] at h₁
    | cons y ys =>
      cases c with
      | nil => simp [charListLt] at h₂
      | cons z zs => simp [charListLt]
  | cons x xs ih =>
    intro b c h₁ h₂
    cases b with
    | nil => simp [charListLt] at h₁
    | cons y ys =>
      cases c with
      | nil => simp [charListLt] at h₂
      | cons z zs =>
        simp only [charListLt] at h₁ h₂ ⊢
        by_cases hxy : x < y
        · by_cases hyz : y < z
          · simp [lt_trans hxy hyz]
          · by_cases hzy : z < y
            · rw [if_neg hyz, if_pos hzy] at h₂
              exact Bool.noConfusion h₂
            · have hyeq : y = z := le_antisymm (not_lt.mp hzy) (not_lt.mp hyz)
              subst hyeq
              simp [hxy]
        · by_cases hyx : y < x
          · rw [if_neg hxy, if_pos hyx] at h₁
            exact Bool.noConfusion h₁
          · have hxeq : x = y := le_antisymm (not_lt.mp hyx) (not_lt.mp hxy)
            subst hxeq
            rw [if_neg hxy, if_neg hyx] at h₁
            by_cases hyz : x < z
            · simp [hyz]
            · by_cases hzy : z < x
              · rw [if_neg hyz, if_pos hzy] at h₂
                exact Bool.noConfusion h₂
              · have hzeq : x = z := le_antisymm (not_lt.mp hzy) (not_lt.mp hyz)
                subst hzeq
                rw [if_neg hyz, if_neg hzy] at h₂
                rw [if_neg hyz, if_neg hzy]
                exact ih ys zs h₁ h₂

theorem charListLt_total :
    ∀ (a b : List Char), charListLt a b = false →
      charListLt b a = true ∨ a = b := by
  intro a
  induction a with
  | nil =>
    intro b h
    cases b with
    | nil => right; rfl
    | cons y ys => simp [charListLt] at h
  | cons x xs ih =>
    intro b h
    cases b with
    | nil => left; simp [charListLt]
    | cons y ys =>
      simp only [charListLt] at h ⊢
      by_cases hxy : x < y
      · rw [if_pos hxy] at h
        exact Bool.noConfusion h
      · by_cases hyx : y < x
        · left; rw [if_pos hyx]
        · have hxeq : x = y := le_antisymm (not_lt.mp hyx) (not_lt.mp hxy)
          subst hxeq
          rw [if_neg hxy, if_neg hyx] at h
          rw [if_neg hyx, if_neg hxy]
          rcases ih ys h with h' | h'
          · left; exact h'
          · right; rw [h']

theorem sqliteTextLt_irrefl (s : String) : sqliteTextLt s s = false :=
  charListLt_irrefl s.data

theorem sqliteTextLt_trans {a b c : String} (h₁ : sqliteTextLt a b = true)
    (h₂ : sqliteTextLt b c = true) : sqliteTextLt a c = true :=
  charListLt_trans a.data b.data c.data h₁ h₂

theorem sqliteTextLt_total {a b : String} (h : sqliteTextLt a b = false) :
    sqliteTextLt b a = true ∨ a = b := by
  rcases charListLt_total a.data b.data h with h' | h'
  · exact Or.inl h'
  · exact Or.inr (stringDataEq h')

/-! ### Lemmas about the `ORDER BY created_at DESC LIMIT 1` selection -/

theorem pickLater_cases (b r : PlanRow) : pickLater b r = b ∨ pickLater b r = r := by
  unfold pickLater
  split
  · right; rfl
  · left; rfl

theorem foldl_pickLater_mem :
    ∀ (rs : List PlanRow) (r : PlanRow), rs.foldl pickLater r ∈ r :: rs := by
  intro rs
  induction rs with
  | nil => intro r; simp
  | cons a rs ih =>
    intro r
    rw [List.foldl_cons]
    rcases List.mem_cons.mp (ih (pickLater r a)) with h' | h'
    · rw [h']
      rcases pickLater_cases r a with h | h <;> rw [h] <;> simp
    · simp [h']

theorem foldl_pickLater_max :
    ∀ (rs : List PlanRow) (r x : PlanRow), x ∈ r :: rs →
      sqliteTextLt (rs.foldl pickLater r).created_at x.created_at = false := by
  intro rs
  induction rs with
  | nil =>
    intro r x hx
    rw [List.mem_singleton] at hx
    subst hx
    exact sqliteTextLt_irrefl _
  | cons a rs ih =>
    intro r x hx
    rw [List.foldl_cons]
    have hhead := ih (pickLater r a) (pickLater r a) (List.mem_cons_self _ _)
    rcases List.mem_cons.mp hx with hx | hx
    · subst hx
      by_cases hxa : sqliteTextLt x.created_at a.created_at = true
      · have hp : pickLater x a = a := by unfold pickLater; rw [if_pos hxa]
        rw [hp] at hhead ⊢
        cases hb : sqliteTextLt (rs.foldl pickLater a).created_at x.created_at with
        | false => rfl
        | true => exact Bool.noConfusion (hhead.symm.trans (sqliteTextLt_trans hb hxa))
      · have hp : pickLater x a = x := by unfold pickLater; rw [if_neg hxa]
        rw [hp] at hhead ⊢
        exact hhead
    · rcases List.mem_cons.mp hx with hx | hx
      · subst hx
        by_cases hra : sqliteTextLt r.created_at x.created_at = true
        · have hp : pickLater r x = x := by unfold pickLater; rw [if_pos hra]
          rw [hp] at hhead ⊢
          exact hhead
        · have hp : pickLater r x = r := by unfold pickLater; rw [if_neg hra]
          rw [hp] at hhead ⊢
          have hra' : sqliteTextLt r.created_at x.created_at = false :=
            Bool.eq_false_iff.mpr hra
          rcases sqliteTextLt_total hra' with hat | heq
          · cases hb : sqliteTextLt (rs.foldl pickLater r).created_at x.created_at with
            | false => rfl
            | true => exact Bool.noConfusion (hhead.symm.trans (sqliteTextLt_trans hb hat))
          · rw [← heq]
            exact hhead
      · exact ih (pickLater r a) x (List.mem_cons_of_mem _ hx)

theorem foldl_pickLater_eq_of_strict_max (rs : List PlanRow) (r x : PlanRow)
    (hx : x ∈ r :: rs)
    (hmax : ∀ y ∈ r :: rs, y ≠ x →
      sqliteTextLt y.created_at x.created_at = true) :
    rs.foldl pickLater r = x := by
  by_contra hne
  have h₁ := hmax _ (foldl_pickLater_mem rs r) hne
  have h₂ := foldl_pickLater_max rs r x hx
  exact Bool.noConfusion (h₂.symm.trans h₁)

theorem selectLatest_eq_of_strict_max (rows : List PlanRow) (x : PlanRow)
    (hx : x ∈ rows)
    (hmax : ∀ y ∈ rows, y ≠ x →
      sqliteTextLt y.created_at x.created_at = true) :
    selectLatest rows = some x := by
  cases rows with
  | nil => simp at hx
  | cons r rs =>
    show some (rs.foldl pickLater r) = some x
    rw [foldl_pickLater_eq_of_strict_max rs r x hx hmax]

theorem selectLatest_spec (rows : List PlanRow) (hne : rows ≠ []) :
    ∃ m, selectLatest rows = some m ∧ m ∈ rows ∧
      ∀ y ∈ rows, sqliteTextLt m.created_at y.created_at = false := by
  cases rows with
  | nil => exact absurd rfl hne
  | cons r rs =>
    exact ⟨rs.foldl pickLater r, rfl, foldl_pickLater_mem rs r,
      fun y hy => foldl_pickLater_max rs r y hy⟩

theorem get_plans_fst (s : Store) (p d today : String) :
    (get_plans s p (some d) today).1 =
      match selectLatest (matching s.rows p d) with
      | some r => r.plan_text
      | none => "" := by
  simp only [get_plans, Option.getD_some, init_db_rows]

theorem matching_single_match (r : PlanRow) (p d : String)
    (hp : r.profile = p) (hd : r.day_of_the_week = d) :
    matching [r] p d = [r] := by
  simp [matching, hp, hd]

theorem matching_single_miss (r : PlanRow) (p d : String)
    (h : r.profile ≠ p ∨ r.day_of_the_week ≠ d) :
    matching [r] p d = [] := by
  rcases h with h | h <;> simp [matching, h]

theorem applySaves_rows_append :
    ∀ (cs : List SaveCall) (s : Store),
      ∃ l, (applySaves s cs).rows = s.rows ++ l := by
  intro cs
  induction cs with
  | nil =>
    intro s
    exact ⟨[], (List.append_nil _).symm⟩
  | cons c cs ih =>
    intro s
    obtain ⟨l, hl⟩ :=
      ih (save_plan s c.profile c.plan_text c.created_at c.day c.source).2
    refine ⟨⟨s.seq + 1, c.profile, c.plan_text, c.created_at, c.source,
      c.day⟩ :: l, ?_⟩
    show (applySaves (save_plan s c.profile c.plan_text c.created_at c.day
      c.source).2 cs).rows = _
    rw [hl, save_plan_rows]
    simp

theorem applySaves_matching_bound :
    ∀ (cs : List SaveCall) (s : Store) (p d ts : String),
      (∀ c ∈ cs, c.profile ≠ p ∨ c.day ≠ d ∨
        sqliteTextLt c.created_at ts = true) →
      ∀ y ∈ matching (applySaves s cs).rows p d,
        y ∈ matching s.rows p d ∨ sqliteTextLt y.created_at ts = true := by
  intro cs
  induction cs with
  | nil =>
    intro s p d ts _ y hy
    exact Or.inl hy
  | cons c cs ih =>
    intro s p d ts hcs y hy
    have hy' : y ∈ matching (applySaves (save_plan s c.profile c.plan_text
        c.created_at c.day c.source).2 cs).rows p d := hy
    rcases ih _ p d ts (fun c' hc' => hcs c' (List.mem_cons_of_mem _ hc'))
        y hy' with hy₂ | hlt
    · rw [save_plan_rows, matching_append] at hy₂
      rcases List.mem_append.mp hy₂ with hy₃ | hy₃
      · exact Or.inl hy₃
      · obtain ⟨hymem, hp, hd⟩ := mem_matching.mp hy₃
        have hy₄ : y = ⟨s.seq + 1, c.profile, c.plan_text, c.created_at,
            c.source, c.day⟩ := List.mem_singleton.mp hymem
        rcases hcs c (List.mem_cons_self _ _) with hc | hc | hc
        · exact absurd (by rw [hy₄] at hp; exact hp) hc
        · exact absurd (by rw [hy₄] at hd; exact hd) hc
        · right
          rw [hy₄]
          exact hc
    · exact Or.inr hlt

/-! ### Claim theorems -/

/-- C3: Default-day resolution.  For every profile `p`, calling
`get_plans(p)` with the `day` argument omitted (`None`) behaves identically
to calling `get_plans(p, day=w)` where `w` is the weekday name that
`_today_weekday()` computes from local time (modelled as the environment
input `today`), in every store state. -/
theorem get_plans_default_day (s : Store) (p today : String) :
    get_plans s p none today = get_plans s p (some today) today := rfl

/-- C8: Retrieval is read-only on the table contents.  For every store
state and arguments, `get_plans` leaves the set of rows and every field of
every row exactly as before; the only state it touches is the defensive
schema-ensure step, i.e. the resulting store is exactly `init_db s`. -/
theorem get_plans_read_only (s : Store) (p : String) (day : Option String)
    (today : String) :
    (get_plans s p day today).2.rows = s.rows ∧
    (get_plans s p day today).2 = init_db s :=
  ⟨init_db_rows s, rfl⟩

/-- C9: Idempotent schema initialization.  Calling `init_db` N times (any
N ≥ 1) on any store state yields exactly the state of calling it once, and
a single call loses no rows and leaves the rowid sequence untouched. -/
theorem init_db_iterate_idem (s : Store) (n : Nat) (h : 1 ≤ n) :
    init_db^[n] s = init_db s ∧ (init_db s).rows = s.rows ∧
    (init_db s).seq = s.seq := by
  refine ⟨?_, init_db_rows s, init_db_seq s⟩
  obtain ⟨m, rfl⟩ := Nat.exists_eq_add_of_le h
  rw [Nat.add_comm 1 m, Function.iterate_succ_apply]
  exact Function.iterate_fixed (init_db_idem s) m

/-- Witness for C9: three initializations of a fresh store equal one. -/
theorem init_db_iterate_idem_witness :
    init_db^[3] Store.empty = init_db Store.empty ∧
    (init_db Store.empty).rows = Store.empty.rows ∧
    (init_db Store.empty).seq = Store.empty.seq :=
  init_db_iterate_idem Store.empty 3 (by decide)

/-- C4: Absence returns empty, not an error.  When no stored row matches
`(p, d)` exactly, `get_plans` returns `""` (it is a total function, so
nothing is raised); and a store whose best matching row has `plan_text`
equal to `""` yields the same `""` result, so absence is indistinguishable
from stored empty content. -/
theorem get_plans_absent_empty (s : Store) (p d today : String) :
    (matching s.rows p d = [] → (get_plans s p (some d) today).1 = "") ∧
    (∀ r : PlanRow, selectLatest (matching s.rows p d) = some r →
      r.plan_text = "" → (get_plans s p (some d) today).1 = "") := by
  constructor
  · intro h
    rw [get_plans_fst, h]
    rfl
  · intro r hsel hr
    rw [get_plans_fst, hsel]
    exact hr

/-- Witness for C4: an unknown profile yields `""` on an empty store, and a
stored row with empty `plan_text` yields the same `""`. -/
theorem get_plans_absent_empty_witness :
    (get_plans Store.empty "unknown_profile" (some "Monday") "Monday").1
      = "" ∧
    (get_plans ⟨some fitnessPlanColumns,
      [⟨1, "p1", "", "2025-01-06T10:00:00+00:00", "agent", "Monday"⟩], 1⟩
      "p1" (some "Monday") "Friday").1 = "" :=
  ⟨(get_plans_absent_empty Store.empty "unknown_profile" "Monday"
      "Monday").1 rfl,
   (get_plans_absent_empty ⟨some fitnessPlanColumns,
      [⟨1, "p1", "", "2025-01-06T10:00:00+00:00", "agent", "Monday"⟩], 1⟩
      "p1" "Monday" "Friday").2
     ⟨1, "p1", "", "2025-01-06T10:00:00+00:00", "agent", "Monday"⟩
     (by decide) rfl⟩

/-- C1 counterexample: the round-trip claim quantified over any store state
fails.  On a store already holding a ("p1", "Monday") row whose
`created_at` ("2999-...") is later than the new save's timestamp
("2025-..."), `save_plan` followed immediately by `get_plans` (no
intervening saves at all) returns the old text, not the newly saved one. -/
theorem save_get_round_trip_counterexample :
    (get_plans (save_plan
        ⟨some fitnessPlanColumns,
         [⟨1, "p1", "OLD", "2999-01-01T00:00:00+00:00", "agent", "Monday"⟩],
         1⟩
        "p1" "text-A" "2025-01-06T10:00:00+00:00" "Monday" "agent").2
      "p1" (some "Monday") "Friday").1 = "OLD" ∧
    (get_plans (save_plan
        ⟨some fitnessPlanColumns,
         [⟨1, "p1", "OLD", "2999-01-01T00:00:00+00:00", "agent", "Monday"⟩],
         1⟩
        "p1" "text-A" "2025-01-06T10:00:00+00:00" "Monday" "agent").2
      "p1" (some "Monday") "Friday").1 ≠ "text-A" := by
  constructor
  · decide
  · decide

/-- C1 (amended): Round-trip.  `save_plan(p, t, day=d)` followed by any
sequence of intervening saves, none of which is for `(p, d)` with a
later-or-equal `created_at`, followed by `get_plans(p, day=d)` returns
exactly `t`, provided every row already in the store matching `(p, d)`
carries a `created_at` strictly earlier (in SQLite TEXT order) than the
new row's timestamp. -/
theorem save_get_round_trip (s : Store) (p t ts d src today : String)
    (cs : List SaveCall)
    (hpre : ∀ r ∈ s.rows, r.profile = p → r.day_of_the_week = d →
      sqliteTextLt r.created_at ts = true)
    (hmid : ∀ c ∈ cs, c.profile ≠ p ∨ c.day ≠ d ∨
      sqliteTextLt c.created_at ts = true) :
    (get_plans (applySaves (save_plan s p t ts d src).2 cs)
      p (some d) today).1 = t := by
  rw [get_plans_fst]
  obtain ⟨l, hl⟩ := applySaves_rows_append cs (save_plan s p t ts d src).2
  have hmem : (⟨s.seq + 1, p, t, ts, src, d⟩ : PlanRow) ∈
      matching (applySaves (save_plan s p t ts d src).2 cs).rows p d := by
    rw [hl, save_plan_rows]
    exact mem_matching.mpr ⟨by simp, rfl, rfl⟩
  have hmax :
      ∀ y ∈ matching (applySaves (save_plan s p t ts d src).2 cs).rows p d,
      y ≠ ⟨s.seq + 1, p, t, ts, src, d⟩ →
      sqliteTextLt y.created_at ts = true := by
    intro y hy hne
    rcases applySaves_matching_bound cs _ p d ts hmid y hy with hy₂ | hlt
    · rw [save_plan_rows, matching_append] at hy₂
      rcases List.mem_append.mp hy₂ with hy₃ | hy₃
      · obtain ⟨hymem, hp, hd⟩ := mem_matching.mp hy₃
        exact hpre y hymem hp hd
      · exact absurd (List.mem_singleton.mp (mem_matching.mp hy₃).1) hne
    · exact hlt
  rw [selectLatest_eq_of_strict_max _ _ hmem hmax]

/-- Witness for C1 (amended): round-trip on a fresh store across one benign
intervening save (a different profile, even with a later timestamp). -/
theorem save_get_round_trip_witness :
    (get_plans (applySaves (save_plan Store.empty "p1" "text-A"
        "2025-01-06T10:00:00+00:00" "Monday" "agent").2
        [⟨"p2", "B", "2025-01-06T11:00:00+00:00", "Monday", "agent"⟩])
      "p1" (some "Monday") "Friday").1 = "text-A" :=
  save_get_round_trip Store.empty "p1" "text-A" "2025-01-06T10:00:00+00:00"
    "Monday" "agent" "Friday"
    [⟨"p2", "B", "2025-01-06T11:00:00+00:00", "Monday", "agent"⟩]
    (by intro r hr hp hd; simp [Store.empty] at hr)
    (by decide)

/-- C2: Latest-wins.  Among all rows matching `(p, d)` exactly, when one
row's `created_at` is strictly later (SQLite TEXT order) than every other
matching row's, `get_plans` returns that row's `plan_text`; in particular
two successive saves of `A` then `B` for `(p, d)` on a fresh store with
`B`'s timestamp strictly later yield `B`. -/
theorem get_plans_latest_wins :
    (∀ (s : Store) (p d today : String) (x : PlanRow),
      x ∈ matching s.rows p d →
      (∀ y ∈ matching s.rows p d, y ≠ x →
        sqliteTextLt y.created_at x.created_at = true) →
      (get_plans s p (some d) today).1 = x.plan_text) ∧
    (∀ (p d tA tB ts₁ ts₂ src₁ src₂ today : String),
      sqliteTextLt ts₁ ts₂ = true →
      (get_plans (save_plan (save_plan Store.empty p tA ts₁ d src₁).2
          p tB ts₂ d src₂).2 p (some d) today).1 = tB) := by
  have hgen : ∀ (s : Store) (p d today : String) (x : PlanRow),
      x ∈ matching s.rows p d →
      (∀ y ∈ matching s.rows p d, y ≠ x →
        sqliteTextLt y.created_at x.created_at = true) →
      (get_plans s p (some d) today).1 = x.plan_text := by
    intro s p d today x hx hmax
    rw [get_plans_fst, selectLatest_eq_of_strict_max _ x hx hmax]
  refine ⟨hgen, ?_⟩
  intro p d tA tB ts₁ ts₂ src₁ src₂ today h
  have h₂rows : (save_plan (save_plan Store.empty p tA ts₁ d src₁).2
      p tB ts₂ d src₂).2.rows =
      [⟨1, p, tA, ts₁, src₁, d⟩, ⟨2, p, tB, ts₂, src₂, d⟩] := by
    rw [save_plan_rows, save_plan_rows, save_plan_seq]
    rfl
  have hm : matching ((save_plan (save_plan Store.empty p tA ts₁ d src₁).2
      p tB ts₂ d src₂).2.rows) p d =
      [⟨1, p, tA, ts₁, src₁, d⟩, ⟨2, p, tB, ts₂, src₂, d⟩] := by
    rw [h₂rows]
    simp [matching]
  exact hgen _ p d today ⟨2, p, tB, ts₂, src₂, d⟩
    (by rw [hm]; simp)
    (by
      intro y hy hne
      rw [hm] at hy
      rcases List.mem_cons.mp hy with hy | hy
      · subst hy
        exact h
      · exact absurd (List.mem_singleton.mp hy) hne)

/-- Witness for C2: the strict-max row "B" of a two-row store is returned,
both for an explicitly given store and for the two-save scenario. -/
theorem get_plans_latest_wins_witness :
    (get_plans ⟨some fitnessPlanColumns,
        [⟨1, "p1", "A", "2025-01-06T10:00:00+00:00", "agent", "Monday"⟩,
         ⟨2, "p1", "B", "2025-01-06T11:00:00+00:00", "agent", "Monday"⟩],
        2⟩ "p1" (some "Monday") "Friday").1 = "B" ∧
    (get_plans (save_plan (save_plan Store.empty "p1" "A"
        "2025-01-06T10:00:00+00:00" "Monday" "agent").2
        "p1" "B" "2025-01-06T11:00:00+00:00" "Monday" "agent").2
      "p1" (some "Monday") "Friday").1 = "B" :=
  ⟨get_plans_latest_wins.1 ⟨some fitnessPlanColumns,
      [⟨1, "p1", "A", "2025-01-06T10:00:00+00:00", "agent", "Monday"⟩,
       ⟨2, "p1", "B", "2025-01-06T11:00:00+00:00", "agent", "Monday"⟩],
      2⟩ "p1" "Monday" "Friday"
      ⟨2, "p1", "B", "2025-01-06T11:00:00+00:00", "agent", "Monday"⟩
      (by decide) (by decide),
   get_plans_latest_wins.2 "p1" "Monday" "A" "B"
     "2025-01-06T10:00:00+00:00" "2025-01-06T11:00:00+00:00"
     "agent" "agent" "Friday" (by decide)⟩

/-- C5: Profile and day isolation.  A save for `(p₂, d₂)` leaves the result
of `get_plans` for any `(p₁, d₁)` with `p₁ ≠ p₂` or `d₁ ≠ d₂` unchanged,
on every store state: the inserted row fails the exact-match filter. -/
theorem save_isolation (s : Store) (p₁ d₁ p₂ t₂ ts₂ d₂ src₂ today : String)
    (h : p₁ ≠ p₂ ∨ d₁ ≠ d₂) :
    (get_plans (save_plan s p₂ t₂ ts₂ d₂ src₂).2 p₁ (some d₁) today).1 =
      (get_plans s p₁ (some d₁) today).1 := by
  have hmiss : matching [⟨s.seq + 1, p₂, t₂, ts₂, src₂, d₂⟩] p₁ d₁ = [] := by
    apply matching_single_miss
    rcases h with h | h
    · exact Or.inl (Ne.symm h)
    · exact Or.inr (Ne.symm h)
  rw [get_plans_fst, get_plans_fst, save_plan_rows, matching_append, hmiss,
    List.append_nil]

/-- Witness for C5: saving for profile "p2" does not change what profile
"p1" reads back. -/
theorem save_isolation_witness :
    (get_plans (save_plan Store.empty "p2" "B" "2025-01-06T10:00:00+00:00"
        "Monday" "agent").2 "p1" (some "Monday") "Friday").1 =
      (get_plans Store.empty "p1" (some "Monday") "Friday").1 :=
  save_isolation Store.empty "p1" "Monday" "p2" "B"
    "2025-01-06T10:00:00+00:00" "Monday" "agent" "Friday"
    (Or.inl (by decide))

/-- C6: Monotonic identifiers.  On any well-formed store, two consecutive
saves return strictly increasing ids, the returned id is distinct from
every id already in the table, the returned id identifies exactly the row
just inserted, and well-formedness (pairwise distinct ids bounded by the
sequence) is preserved, so the guarantee holds along any sequence of
saves. -/
theorem save_ids_monotonic (s : Store)
    (p₁ t₁ ts₁ d₁ src₁ p₂ t₂ ts₂ d₂ src₂ : String) (hwf : s.WF) :
    (save_plan s p₁ t₁ ts₁ d₁ src₁).1 <
      (save_plan (save_plan s p₁ t₁ ts₁ d₁ src₁).2 p₂ t₂ ts₂ d₂ src₂).1 ∧
    (∀ r ∈ s.rows, r.id ≠ (save_plan s p₁ t₁ ts₁ d₁ src₁).1) ∧
    (save_plan s p₁ t₁ ts₁ d₁ src₁).2.rows =
      s.rows ++
        [⟨(save_plan s p₁ t₁ ts₁ d₁ src₁).1, p₁, t₁, ts₁, src₁, d₁⟩] ∧
    (save_plan s p₁ t₁ ts₁ d₁ src₁).2.WF := by
  refine ⟨?_, ?_, ?_, ?_, ?_⟩
  · simp only [save_plan_fst, save_plan_seq]
    omega
  · intro r hr
    simp only [save_plan_fst]
    have := hwf.1 r hr
    omega
  · rw [save_plan_rows, save_plan_fst]
  · intro r hr
    rw [save_plan_rows] at hr
    rw [save_plan_seq]
    rcases List.mem_append.mp hr with hr | hr
    · exact Nat.le_succ_of_le (hwf.1 r hr)
    · rw [List.mem_singleton.mp hr]
  · rw [save_plan_rows]
    refine List.pairwise_append.mpr ⟨hwf.2, List.pairwise_singleton _ _, ?_⟩
    intro a ha b hb
    rw [List.mem_singleton.mp hb]
    show a.id ≠ s.seq + 1
    have := hwf.1 a ha
    omega

/-- Witness for C6: two saves on a fresh store return ids 1 then 2. -/
theorem save_ids_monotonic_witness :
    (save_plan Store.empty "p1" "A" "2025-01-06T10:00:00+00:00" "Monday"
        "agent").1 <
      (save_plan (save_plan Store.empty "p1" "A"
          "2025-01-06T10:00:00+00:00" "Monday" "agent").2
        "p2" "B" "2025-01-06T11:00:00+00:00" "Tuesday" "agent").1 ∧
    (∀ r ∈ Store.empty.rows,
      r.id ≠ (save_plan Store.empty "p1" "A" "2025-01-06T10:00:00+00:00"
        "Monday" "agent").1) ∧
    (save_plan Store.empty "p1" "A" "2025-01-06T10:00:00+00:00" "Monday"
        "agent").2.rows =
      Store.empty.rows ++
        [⟨(save_plan Store.empty "p1" "A" "2025-01-06T10:00:00+00:00"
            "Monday" "agent").1,
          "p1", "A", "2025-01-06T10:00:00+00:00", "agent", "Monday"⟩] ∧
    (save_plan Store.empty "p1" "A" "2025-01-06T10:00:00+00:00" "Monday"
        "agent").2.WF :=
  save_ids_monotonic Store.empty "p1" "A" "2025-01-06T10:00:00+00:00"
    "Monday" "agent" "p2" "B" "2025-01-06T11:00:00+00:00" "Tuesday" "agent"
    ⟨fun r hr => absurd hr (List.not_mem_nil r), List.Pairwise.nil⟩

/-- C7: Write-time literal day, read-time-only defaulting.  A save with the
`day` argument left at its Python default stores the empty string `""`
literally in `day_of_the_week`; such a row is returned by an explicit
`get_plans(p, day="")` but never by `get_plans(p)` with `day` omitted,
because omission defaults to a weekday name, which is never `""`. -/
theorem save_default_day_literal (s : Store) (p t ts today : String)
    (htoday : today ∈ weekdays) :
    (save_plan s p t ts save_plan_default_day
        save_plan_default_source).2.rows =
      s.rows ++ [⟨s.seq + 1, p, t, ts, "agent", ""⟩] ∧
    (get_plans (save_plan Store.empty p t ts save_plan_default_day
        save_plan_default_source).2 p (some "") today).1 = t ∧
    (get_plans (save_plan Store.empty p t ts save_plan_default_day
        save_plan_default_source).2 p none today).1 = "" := by
  have hrows : (save_plan Store.empty p t ts save_plan_default_day
      save_plan_default_source).2.rows = [⟨1, p, t, ts, "agent", ""⟩] := by
    rw [save_plan_rows]
    rfl
  have htoday_ne : today ≠ "" := by
    have h7 := htoday
    simp [weekdays] at h7
    rcases h7 with rfl | rfl | rfl | rfl | rfl | rfl | rfl <;> decide
  refine ⟨?_, ?_, ?_⟩
  · rw [save_plan_rows]
    rfl
  · rw [get_plans_fst, hrows,
      matching_single_match ⟨1, p, t, ts, "agent", ""⟩ p "" rfl rfl]
    rfl
  · have hm : matching [⟨1, p, t, ts, "agent", ""⟩] p today = [] :=
      matching_single_miss _ _ _ (Or.inr (Ne.symm htoday_ne))
    show (get_plans (save_plan Store.empty p t ts save_plan_default_day
        save_plan_default_source).2 p (some today) today).1 = ""
    rw [get_plans_fst, hrows, hm]
    rfl

/-- Witness for C7: a row saved with the default day is read back by
`day=""` and invisible when `day` is omitted on a Thursday. -/
theorem save_default_day_literal_witness :
    (save_plan Store.empty "p1" "text-A" "2025-01-06T10:00:00+00:00"
        save_plan_default_day save_plan_default_source).2.rows =
      Store.empty.rows ++
        [⟨Store.empty.seq + 1, "p1", "text-A", "2025-01-06T10:00:00+00:00",
          "agent", ""⟩] ∧
    (get_plans (save_plan Store.empty "p1" "text-A"
        "2025-01-06T10:00:00+00:00" save_plan_default_day
        save_plan_default_source).2 "p1" (some "") "Thursday").1 = "text-A" ∧
    (get_plans (save_plan Store.empty "p1" "text-A"
        "2025-01-06T10:00:00+00:00" save_plan_default_day
        save_plan_default_source).2 "p1" none "Thursday").1 = "" :=
  save_default_day_literal Store.empty "p1" "text-A"
    "2025-01-06T10:00:00+00:00" "Thursday" (by decide)

/-- C10: Latest selection is lexicographic on the stored timestamp string.
The selected row's `created_at` is maximal in raw byte-wise TEXT order
among the matching rows; and on rows whose timestamp strings are not
lexicographically monotone in time (here `"9:00"` versus an ISO-8601
string), the string-wise maximum wins even though it is not the
chronologically latest. -/
theorem get_plans_lexicographic (s : Store) (p d today : String)
    (h : matching s.rows p d ≠ []) :
    (∃ m, m ∈ matching s.rows p d ∧
      (∀ y ∈ matching s.rows p d,
        sqliteTextLt m.created_at y.created_at = false) ∧
      (get_plans s p (some d) today).1 = m.plan_text) ∧
    sqliteTextLt "2025-01-06T10:00:00+00:00" "9:00" = true ∧
    (get_plans ⟨some fitnessPlanColumns,
        [⟨1, "p1", "NEWER-TIME", "2025-01-06T10:00:00+00:00", "agent",
          "Monday"⟩,
         ⟨2, "p1", "LEX-MAX", "9:00", "agent", "Monday"⟩], 2⟩
      "p1" (some "Monday") "Friday").1 = "LEX-MAX" := by
  refine ⟨?_, by decide, by decide⟩
  obtain ⟨m, hsel, hmem, hmax⟩ := selectLatest_spec _ h
  exact ⟨m, hmem, hmax, by rw [get_plans_fst, hsel]⟩

/-- Witness for C10: on a one-row store the matching set is nonempty and
the selected row is its string-wise maximum. -/
theorem get_plans_lexicographic_witness :
    (∃ m, m ∈ matching (⟨some fitnessPlanColumns,
        [⟨1, "p1", "A", "2025-01-06T10:00:00+00:00", "agent", "Monday"⟩],
        1⟩ : Store).rows "p1" "Monday" ∧
      (∀ y ∈ matching (⟨some fitnessPlanColumns,
          [⟨1, "p1", "A", "2025-01-06T10:00:00+00:00", "agent", "Monday"⟩],
          1⟩ : Store).rows "p1" "Monday",
        sqliteTextLt m.created_at y.created_at = false) ∧
      (get_plans ⟨some fitnessPlanColumns,
          [⟨1, "p1", "A", "2025-01-06T10:00:00+00:00", "agent", "Monday"⟩],
          1⟩ "p1" (some "Monday") "Friday").1 = m.plan_text) ∧
    sqliteTextLt "2025-01-06T10:00:00+00:00" "9:00" = true ∧
    (get_plans ⟨some fitnessPlanColumns,
        [⟨1, "p1", "NEWER-TIME", "2025-01-06T10:00:00+00:00", "agent",
          "Monday"⟩,
         ⟨2, "p1", "LEX-MAX", "9:00", "agent", "Monday"⟩], 2⟩
      "p1" (some "Monday") "Friday").1 = "LEX-MAX" :=
  get_plans_lexicographic ⟨some fitnessPlanColumns,
    [⟨1, "p1", "A", "2025-01-06T10:00:00+00:00", "agent", "Monday"⟩], 1⟩
    "p1" "Monday" "Friday" (by decide)
